import Mathlib

/-!
Shallow embedding of the offchain-metadata-server core (`src/api.rs`):
the data model (JSON documents keyed by file stem), the loader
(`read_mappings`), the four read handlers (`single_subject`,
`all_properties`, `some_property`, `query`), and the shared mutex-guarded
mapping they all touch.

Modelling conventions:
- `serde_json::Value` is embedded as the inductive `Json`; objects carry an
  association list of fields (serde maps are key-value maps; only key lookup
  is exercised by the code).
- The `HashMap<String, Value>` behind the mutex is embedded as an
  association list with insert-replacing-existing-key semantics (`insertA`),
  matching `HashMap::insert`.
- The `Mutex` is embedded by a `poisoned` flag on the state: `lock()`
  succeeds iff the flag is off, and a panic while the lock is held sets it
  (Rust mutexes are poisoned by a panic of the holder).
- Rust panics (`expect`/`unwrap` on the failing side) are embedded as
  explicit `panicked` outcomes carrying the state left behind.
- The file system seen by one call to `read_mappings` is embedded as the
  result of `read_dir` at the registry path: either an error, or a list of
  items, each item being `none` (an `Err` dir-entry, `expect`ed at line 47)
  or a `DirEntry`. File reading and JSON parsing are embedded by their
  outcome (`FileRead`), since the loader only branches on success/failure
  of `read_to_string` and `serde_json::from_str`.
-/

/-- Embedding of `serde_json::Value`. Numbers are embedded as integers;
their internal structure is never inspected by the server. -/
inductive Json where
  | null : Json
  | bool : Bool → Json
  | num : Int → Json
  | str : String → Json
  | arr : List Json → Json
  | obj : List (String × Json) → Json


/-- Association-list lookup: the first binding for `k` wins
(well-formed maps have at most one). Embeds `HashMap::get` /
`serde_json::Map::get`. -/
def lookupA (k : String) : List (String × Json) → Option Json
  | [] => none
  | (k', v) :: rest => if k' = k then some v else lookupA k rest

/-- Association-list insert with replace-on-existing-key, embedding
`HashMap::insert`: an existing binding for `k` is overwritten in place,
otherwise the binding is appended. -/
def insertA (k : String) (v : Json) : List (String × Json) → List (String × Json)
  | [] => [(k, v)]
  | (k', v') :: rest => if k' = k then (k, v) :: rest else (k', v') :: insertA k v rest

/-- Rust `Value::get(name)` for a string index: key lookup on an object,
`None` on every other JSON shape (`src/api.rs` lines 137, 198). -/
def Json.get (j : Json) (name : String) : Option Json :=
  match j with
  | .obj fields => lookupA name fields
  | _ => none

/-- The mutex-guarded shared state `Arc<Mutex<HashMap<String, Value>>>`:
the current mapping plus the mutex's poison flag. `lock()` returns `Ok`
iff `poisoned = false`. -/
structure MutexMap where
  map : List (String × Json)
  poisoned : Bool


/-- Outcome of reading and parsing one file (`src/api.rs` lines 52-56):
`read_to_string` failed, or it succeeded and `serde_json::from_str`
failed, or both succeeded yielding a document. -/
inductive FileRead where
  | ioError : FileRead
  | parseError : FileRead
  | parsed : Json → FileRead


/-- One directory entry as the loader sees it: the outcome of
`path.file_stem()` composed with `OsStr::to_str` (`none` when the name
cannot yield a stem as a `str`, the `expect`ed cases at lines 48-49),
and the outcome of reading/parsing the file at that path. -/
structure DirEntry where
  stem : Option String
  file : FileRead


/-- The file system at the registry path for one load: `read_dir` either
fails (path not a readable directory) or yields items, each `none` (an
`Err` item, `expect`ed at line 47) or an entry. -/
structure Dir where
  registryPath : String
  listing : Except Unit (List (Option DirEntry))

/-- Result of running a registry operation that may panic: either it
returns normally leaving state `st`, or it panics leaving state `st`
(with the mutex poisoned when the panic happened under the lock). -/
inductive RunResult where
  | ok : MutexMap → RunResult
  | panicked : MutexMap → RunResult


/-- The state left behind by a run, whether it returned or panicked. -/
def RunResult.state : RunResult → MutexMap
  | .ok st => st
  | .panicked st => st

/-- Model of `PathBuf::from_str` (line 35): its error type is `Infallible`, so it
always succeeds and the `is_err` branch at lines 36-39 is dead. -/
def pathBufFromStr (s : String) : Except Empty String := .ok s

/-- The loop body of `read_mappings` (lines 46-57), run while holding the
lock: for each item, an `Err` item panics (line 47), a missing stem
panics (lines 48-49), an unreadable or unparsable file is skipped
(lines 52-53), and a parsed document is inserted under the stem
(line 54). A panic under the lock poisons the mutex; insertions made
before the panic persist. -/
def processEntries : List (Option DirEntry) → List (String × Json) → RunResult
  | [], m => .ok ⟨m, false⟩
  | none :: _, m => .panicked ⟨m, true⟩
  | some e :: rest, m =>
    match e.stem with
    | none => .panicked ⟨m, true⟩
    | some key =>
      match e.file with
      | .parsed j => processEntries rest (insertA key j m)
      | _ => processEntries rest m

/-- Loader `read_mappings` (lines 30-62): build a `PathBuf` (infallible), call
`read_dir`, then take the lock; if the lock is poisoned, log and return
with the state unchanged (lines 59-61); otherwise `expect` the
`read_dir` result (line 46, panicking under the lock if it was an
error) and run the loop over its items. -/
def read_mappings (fs : Dir) (st : MutexMap) : RunResult :=
  match pathBufFromStr fs.registryPath with
  | .error e => nomatch e
  | .ok _pathBuf =>
    if st.poisoned then .ok st
    else
      match fs.listing with
      | .error _ => .panicked { st with poisoned := true }
      | .ok entries => processEntries entries st.map

/-- An HTTP response as the handlers build them: 200 with a JSON body,
404 with an empty body, or 500 with an empty body. -/
inductive HttpResponse where
  | okJson : Json → HttpResponse
  | okText : String → HttpResponse
  | notFound : HttpResponse
  | internalServerError : HttpResponse


/-- Outcome of one request handler: a response, or a panic of the
handling task (a failing `expect`). The read handlers never mutate the
map, so the post-state is not carried. -/
inductive HResult where
  | response : HttpResponse → HResult
  | panicked : HResult


/-- Handler `single_subject` (lines 66-89), `GET /metadata/{subject}`: lock the
map (500 on a poisoned lock, lines 84-87), then 200 with the document if
the subject is present, else 404 with an empty body. -/
def single_subject (subject : String) (st : MutexMap) : HResult :=
  if st.poisoned then .response .internalServerError
  else
    match lookupA subject st.map with
    | some d => .response (.okJson d)
    | none => .response .notFound

/-- Handler `all_properties` (lines 96-120), `GET /metadata/{subject}/properties`:
lock the map (500 on a poisoned lock), then 200 with the whole document if
the subject is present (the documented quirk: not a list of property
names), else 404 with an empty body. -/
def all_properties (subject : String) (st : MutexMap) : HResult :=
  if st.poisoned then .response .internalServerError
  else
    match lookupA subject st.map with
    | some d => .response (.okJson d)
    | none => .response .notFound

/-- Handler `some_property` (lines 128-148),
`GET /metadata/{subject}/properties/{name}`: lock the map (500 on a
poisoned lock), `expect` the subject lookup (line 135 — an absent subject
panics the handler), then 200 with `{"subject": subject, "name": value}`
if the property is present, else 404. -/
def some_property (subject name : String) (st : MutexMap) : HResult :=
  if st.poisoned then .response .internalServerError
  else
    match lookupA subject st.map with
    | none => .panicked
    | some meta =>
      match meta.get name with
      | some v => .response (.okJson (.obj [("subject", .str subject), ("name", v)]))
      | none => .response .notFound

/-- The projection loop of `query` (lines 196-202): starting from an
empty `HashMap`, for each requested property name in order, insert
`(name, value)` when the document has that name, skip it otherwise. -/
def buildProjection (subj : Json) : List String → List (String × Json) → List (String × Json)
  | [], acc => acc
  | p :: rest, acc =>
    match subj.get p with
    | some v => buildProjection subj rest (insertA p v acc)
    | none => buildProjection subj rest acc

/-- The subject loop of `query` (lines 187-215): subjects absent from the
map are dropped silently; a found subject contributes its projection when
a properties list was given, its whole document otherwise, in input
order. -/
def queryLoop (m : List (String × Json)) (properties : Option (List String)) :
    List String → List Json
  | [] => []
  | s :: rest =>
    match lookupA s m with
    | some subj =>
      (match properties with
       | some props => Json.obj (buildProjection subj props [])
       | none => subj) :: queryLoop m properties rest
    | none => queryLoop m properties rest

/-- Handler `query` (lines 168-226), `POST /metadata/query`: `expect` the lock
(line 177 — a poisoned lock panics the handler), run the subject loop,
and answer 200 with `{"subjects": [...]}`. -/
def query (subjects : List String) (properties : Option (List String))
    (st : MutexMap) : HResult :=
  if st.poisoned then .panicked
  else .response (.okJson (.obj [("subjects", .arr (queryLoop st.map properties subjects))]))

/-- Handler `reread_mappings` (lines 152-155), `GET /reread`: run `read_mappings`
and answer 200 `"Reread contents"` whenever it returns (the response does
not depend on the load's outcome); a panic inside `read_mappings`
propagates. -/
def reread_mappings (fs : Dir) (st : MutexMap) : HResult × MutexMap :=
  match read_mappings fs st with
  | .ok st2 => (.response (.okText "Reread contents"), st2)
  | .panicked st2 => (.panicked, st2)

/-- The key of a directory entry that contributes a mapping entry: its
stem, provided its file was readable and parsed. -/
def DirEntry.goodKey (e : DirEntry) : Option String :=
  match e.stem, e.file with
  | some k, .parsed _ => some k
  | _, _ => none

theorem lookupA_insertA (k q : String) (v : Json) (m : List (String × Json)) :
    lookupA q (insertA k v m) = if k = q then some v else lookupA q m := by
  induction m with
  | nil => simp [insertA, lookupA]
  | cons hd tl ih =>
    obtain ⟨k', v'⟩ := hd
    by_cases hk : k' = k
    · subst hk
      by_cases hq : k' = q <;> simp [insertA, lookupA, hq]
    · by_cases hq : k' = q
      · subst hq
        simp [insertA, lookupA, hk, Ne.symm hk]
      · simp [insertA, lookupA, hk, hq, ih]

theorem length_insertA_of_lookupA_none (k : String) (v : Json) :
    ∀ m : List (String × Json), lookupA k m = none →
      (insertA k v m).length = m.length + 1 := by
  intro m
  induction m with
  | nil => intro h0; simp [insertA]
  | cons hd tl ih =>
    obtain ⟨k', v'⟩ := hd
    intro h
    by_cases hk : k' = k
    · subst hk
      simp [lookupA] at h
    · simp only [lookupA, if_neg hk] at h
      simp [insertA, hk, ih h]

theorem isSome_lookupA_insertA (k q : String) (v : Json)
    (m : List (String × Json)) (h : (lookupA q m).isSome = true) :
    (lookupA q (insertA k v m)).isSome = true := by
  rw [lookupA_insertA]
  by_cases hk : k = q <;> simp [hk, h]

theorem queryLoop_none_eq_filterMap (m : List (String × Json)) :
    ∀ subjects : List String,
      queryLoop m none subjects = subjects.filterMap (fun s => lookupA s m) := by
  intro subjects
  induction subjects with
  | nil => simp [queryLoop]
  | cons s rest ih =>
    cases hs : lookupA s m <;> simp [queryLoop, hs, ih]

theorem queryLoop_some_eq_filterMap (m : List (String × Json)) (props : List String) :
    ∀ subjects : List String,
      queryLoop m (some props) subjects
        = subjects.filterMap (fun s =>
            (lookupA s m).map (fun d => Json.obj (buildProjection d props []))) := by
  intro subjects
  induction subjects with
  | nil => simp [queryLoop]
  | cons s rest ih =>
    cases hs : lookupA s m <;> simp [queryLoop, hs, ih]

theorem lookupA_buildProjection (d : Json) :
    ∀ (props : List String) (acc : List (String × Json)) (p : String),
      lookupA p (buildProjection d props acc)
        = if p ∈ props ∧ (d.get p).isSome then d.get p else lookupA p acc := by
  intro props
  induction props with
  | nil => simp [buildProjection]
  | cons q rest ih =>
    intro acc p
    by_cases hp : p = q
    · subst hp
      cases hv : d.get p with
      | none =>
        simp only [buildProjection, hv]
        rw [ih]
        by_cases hmem : p ∈ rest <;> simp [hmem, hv]
      | some v =>
        simp only [buildProjection, hv]
        rw [ih]
        by_cases hmem : p ∈ rest
        · simp [hmem, hv]
        · simp [hmem, hv, lookupA_insertA]
    · cases hv : d.get q with
      | none =>
        simp only [buildProjection, hv]
        rw [ih]
        simp [List.mem_cons, hp]
      | some v =>
        simp only [buildProjection, hv]
        rw [ih]
        rw [lookupA_insertA]
        simp [hp, Ne.symm hp, List.mem_cons]

theorem get_buildProjection (d : Json) (props : List String) (p : String) :
    (Json.obj (buildProjection d props [])).get p
      = if p ∈ props then d.get p else none := by
  show lookupA p (buildProjection d props []) = _
  rw [lookupA_buildProjection]
  by_cases hmem : p ∈ props
  · cases hv : d.get p <;> simp [hmem, hv, lookupA]
  · simp [hmem, lookupA]

theorem processEntries_ok_length :
    ∀ (entries : List DirEntry) (m : List (String × Json)),
      (∀ e ∈ entries, e.stem.isSome = true) →
      (entries.filterMap DirEntry.goodKey).Nodup →
      (∀ k ∈ entries.filterMap DirEntry.goodKey, lookupA k m = none) →
      ∃ m2, processEntries (entries.map some) m = .ok ⟨m2, false⟩
        ∧ m2.length = m.length + (entries.filterMap DirEntry.goodKey).length := by
  intro entries
  induction entries with
  | nil =>
    intro m h1 h2 h3
    exact ⟨m, rfl, by simp [List.filterMap]⟩
  | cons e rest ih =>
    intro m hstem hdup hfresh
    obtain ⟨s0, f0⟩ := e
    have hs0 : s0.isSome = true := hstem ⟨s0, f0⟩ (List.mem_cons_self _ _)
    obtain ⟨k, hk⟩ := Option.isSome_iff_exists.mp hs0
    subst hk
    cases f0 with
    | parsed j =>
      have hgood : DirEntry.goodKey ⟨some k, .parsed j⟩ = some k := rfl
      have hnotmem : k ∉ rest.filterMap DirEntry.goodKey := by
        have h2 := hdup
        simp only [List.filterMap_cons, hgood, List.nodup_cons] at h2
        exact h2.1
      have hdup2 : (rest.filterMap DirEntry.goodKey).Nodup := by
        have h2 := hdup
        simp only [List.filterMap_cons, hgood, List.nodup_cons] at h2
        exact h2.2
      have hfresh2 : ∀ q ∈ rest.filterMap DirEntry.goodKey,
          lookupA q (insertA k j m) = none := by
        intro q hq
        rw [lookupA_insertA]
        have hkq : ¬k = q := fun h => hnotmem (h ▸ hq)
        simp only [if_neg hkq]
        exact hfresh q (by simp only [List.filterMap_cons, hgood, List.mem_cons]; exact Or.inr hq)
      obtain ⟨m2, heq, hlen⟩ := ih (insertA k j m)
        (fun e he => hstem e (List.mem_cons_of_mem _ he)) hdup2 hfresh2
      refine ⟨m2, ?_, ?_⟩
      · simpa [processEntries] using heq
      · have hkm : lookupA k m = none :=
          hfresh k (by simp [List.filterMap_cons, hgood])
        rw [hlen, length_insertA_of_lookupA_none k j m hkm]
        simp only [List.filterMap_cons, hgood, List.length_cons]
        omega
    | ioError =>
      have hgood : DirEntry.goodKey ⟨some k, .ioError⟩ = none := rfl
      obtain ⟨m2, heq, hlen⟩ := ih m
        (fun e he => hstem e (List.mem_cons_of_mem _ he))
        (by simpa only [List.filterMap_cons, hgood] using hdup)
        (fun q hq => hfresh q (by simpa only [List.filterMap_cons, hgood] using hq))
      exact ⟨m2, by simpa [processEntries] using heq,
        by simpa only [List.filterMap_cons, hgood] using hlen⟩
    | parseError =>
      have hgood : DirEntry.goodKey ⟨some k, .parseError⟩ = none := rfl
      obtain ⟨m2, heq, hlen⟩ := ih m
        (fun e he => hstem e (List.mem_cons_of_mem _ he))
        (by simpa only [List.filterMap_cons, hgood] using hdup)
        (fun q hq => hfresh q (by simpa only [List.filterMap_cons, hgood] using hq))
      exact ⟨m2, by simpa [processEntries] using heq,
        by simpa only [List.filterMap_cons, hgood] using hlen⟩

theorem processEntries_keeps_keys :
    ∀ (items : List (Option DirEntry)) (m : List (String × Json)) (k : String),
      (lookupA k m).isSome = true →
      (lookupA k (processEntries items m).state.map).isSome = true := by
  intro items
  induction items with
  | nil => intro m k h; simpa [processEntries, RunResult.state] using h
  | cons it rest ih =>
    intro m k h
    cases it with
    | none => simpa [processEntries, RunResult.state] using h
    | some e =>
      obtain ⟨s0, f0⟩ := e
      cases s0 with
      | none => simpa [processEntries, RunResult.state] using h
      | some key =>
        cases f0 with
        | parsed j =>
          simpa [processEntries] using
            ih (insertA key j m) k (isSome_lookupA_insertA key k j m h)
        | ioError => simpa [processEntries] using ih m k h
        | parseError => simpa [processEntries] using ih m k h

/-- A sample directory: two well-formed JSON files with distinct stems,
one malformed file, one unreadable file. -/
def sampleEntries : List DirEntry :=
  [⟨some "a", .parsed (Json.num 1)⟩,
   ⟨some "bad1", .parseError⟩,
   ⟨some "b", .parsed (Json.num 2)⟩,
   ⟨some "bad2", .ioError⟩]

/-- C1: the claim says a reload whose directory omits a previously-present
subject makes `get` for it not-found (strict replace). The code violates
this: `read_mappings` inserts into the existing map without clearing it,
so after reloading a directory containing only `a.json` over a registry
holding `a` and `b`, the reload completes normally and `GET /metadata/b`
still answers 200 with the old document. -/
theorem c1_reload_merges_instead_of_replacing :
    read_mappings ⟨"registry", .ok [some ⟨some "a", .parsed (Json.num 1)⟩]⟩
        ⟨[("a", Json.num 1), ("b", Json.num 2)], false⟩
      = .ok ⟨[("a", Json.num 1), ("b", Json.num 2)], false⟩
    ∧ single_subject "b" ⟨[("a", Json.num 1), ("b", Json.num 2)], false⟩
      = .response (.okJson (Json.num 2)) :=
  ⟨rfl, rfl⟩

/-- C2: the claim says a per-property lookup on an absent subject returns
not-found and is never reached via an unchecked unwrap. The code violates
this: `some_property` calls `.expect("Could not find it ")` on the subject
lookup (line 135), so a request for any property of a missing subject
panics the handling task instead of answering 404. -/
theorem c2_missing_subject_panics_property_lookup :
    some_property "missing-subject" "anything" ⟨[], false⟩ = .panicked :=
  rfl

/-- C3: the claim says a reload over an unreadable root path fails without
panicking and leaves the registry usable. The code violates this: when
`read_dir` fails, `read_mappings` hits `paths.expect("Not a ReadDir
Iterator")` (line 46) while holding the lock, so it panics, poisons the
mutex, and every subsequent read answers 500 — the snapshot data is
untouched but the registry is no longer usable. -/
theorem c3_invalid_path_panics_and_poisons :
    read_mappings ⟨"/no/such/dir", .error ()⟩ ⟨[("a", Json.null)], false⟩
      = .panicked ⟨[("a", Json.null)], true⟩
    ∧ single_subject "a" ⟨[("a", Json.null)], true⟩ = .response .internalServerError :=
  ⟨rfl, rfl⟩

/-- C4: the claim says every handler that reads the registry, the batch
query included, maps a poisoned lock to a server-error response without
panicking. The code violates this for the batch endpoint: `query` calls
`.lock().expect("Error acquiring mutex lock")` (line 177) and panics on a
poisoned lock, while the three single-subject handlers do answer 500. -/
theorem c4_query_panics_on_poisoned_lock :
    query ["a"] none ⟨[("a", Json.null)], true⟩ = .panicked
    ∧ single_subject "a" ⟨[("a", Json.null)], true⟩ = .response .internalServerError
    ∧ all_properties "a" ⟨[("a", Json.null)], true⟩ = .response .internalServerError
    ∧ some_property "a" "p" ⟨[("a", Json.null)], true⟩ = .response .internalServerError :=
  ⟨rfl, rfl, rfl, rfl⟩

/-- C5: a batch query without a properties list answers 200 with, for each
requested subject found in the registry, that subject's full document;
absent subjects are dropped silently, and the output order is the input
order restricted to the subset found (`List.filterMap` over the input). -/
theorem c5_batch_full_documents_in_input_order
    (subjects : List String) (m : List (String × Json)) :
    query subjects none ⟨m, false⟩
      = .response (.okJson (.obj [("subjects",
          .arr (subjects.filterMap (fun s => lookupA s m)))])) := by
  simp [query, queryLoop_none_eq_filterMap]

/-- C6: a batch query with a properties list emits, for each found
subject, the projection of its document: the emitted entries are exactly
the found subjects' projections in input order, and looking up any name
in a projection yields the document's value when the name was requested
and present, and nothing otherwise — requested names absent from the
document are omitted entirely, never included as null. -/
theorem c6_batch_projection_exact
    (subjects props : List String) (m : List (String × Json)) :
    query subjects (some props) ⟨m, false⟩
      = .response (.okJson (.obj [("subjects",
          .arr (subjects.filterMap (fun s => (lookupA s m).map
            (fun d => Json.obj (buildProjection d props [])))))]))
    ∧ ∀ (d : Json) (p : String),
        (Json.obj (buildProjection d props [])).get p
          = if p ∈ props then d.get p else none :=
  ⟨by simp [query, queryLoop_some_eq_filterMap],
   fun d p => get_buildProjection d props p⟩

/-- C7: loading an empty registry from a directory holding well-formed
JSON files with distinct stems plus malformed or unreadable files
succeeds and yields a registry whose size is exactly the number of
well-formed files; per-file read and parse failures only skip that
file. -/
theorem c7_load_size_counts_wellformed_files
    (p : String) (entries : List DirEntry)
    (hstem : ∀ e ∈ entries, e.stem.isSome = true)
    (hdup : (entries.filterMap DirEntry.goodKey).Nodup) :
    ∃ m, read_mappings ⟨p, .ok (entries.map some)⟩ ⟨[], false⟩ = .ok ⟨m, false⟩
      ∧ m.length = (entries.filterMap DirEntry.goodKey).length := by
  obtain ⟨m2, heq, hlen⟩ := processEntries_ok_length entries [] hstem hdup
    (fun k hk => rfl)
  exact ⟨m2, by simpa [read_mappings, pathBufFromStr] using heq, by simpa using hlen⟩

/-- Witness for C7: a concrete directory with two well-formed files
(stems `a`, `b`), one malformed file and one unreadable file loads into
an empty registry with exactly two entries. -/
theorem c7_load_size_counts_wellformed_files_witness :
    (∀ e ∈ sampleEntries, e.stem.isSome = true)
    ∧ (sampleEntries.filterMap DirEntry.goodKey).Nodup
    ∧ ∃ m, read_mappings ⟨"registry", .ok (sampleEntries.map some)⟩ ⟨[], false⟩
        = .ok ⟨m, false⟩
      ∧ m.length = (sampleEntries.filterMap DirEntry.goodKey).length :=
  ⟨by decide, by decide,
   c7_load_size_counts_wellformed_files "registry" sampleEntries (by decide) (by decide)⟩

/-- C8: the claim says a directory entry whose name cannot yield a file
stem is skipped and the load continues. The code violates this:
`path.file_stem().expect("No file_stem")` / `to_str().expect(...)` (lines
48-49) panic on such an entry, so the load aborts under the lock —
poisoning the mutex — and the remaining entries (here a well-formed
`a.json`) are never loaded. -/
theorem c8_stemless_entry_aborts_load :
    read_mappings ⟨"registry", .ok [some ⟨none, .parsed Json.null⟩,
        some ⟨some "a", .parsed (Json.num 1)⟩]⟩ ⟨[], false⟩
      = .panicked ⟨[], true⟩ :=
  rfl

/-- C9: `GET /metadata/{subject}/properties` behaves exactly like
`GET /metadata/{subject}` in every registry state — the whole document
with 200 when the subject is present, an empty-body 404 when absent, 500
on a poisoned lock — and in particular does not return a list of
property names. -/
theorem c9_all_properties_equals_single_subject (subject : String) (st : MutexMap) :
    all_properties subject st = single_subject subject st
    ∧ ∀ m : List (String × Json),
        all_properties subject ⟨m, false⟩
          = match lookupA subject m with
            | some d => HResult.response (.okJson d)
            | none => HResult.response .notFound :=
  ⟨rfl, fun _ => rfl⟩

/-- C10: a reload never removes a subject: whatever the directory
contents and however the load ends (normally or by panic), every subject
present in the mapping before `read_mappings` is still present in the
mapping afterwards — only insertions and same-stem overwrites occur. -/
theorem c10_reload_never_removes_subjects (fs : Dir) (st : MutexMap) (k : String)
    (h : (lookupA k st.map).isSome = true) :
    (lookupA k (read_mappings fs st).state.map).isSome = true := by
  have hdef : read_mappings fs st
      = if st.poisoned then .ok st
        else match fs.listing with
          | .error _ => .panicked { st with poisoned := true }
          | .ok entries => processEntries entries st.map := rfl
  rw [hdef]
  by_cases hp : st.poisoned
  · simpa [hp, RunResult.state] using h
  · cases hl : fs.listing with
    | error u => simpa [hp, hl, RunResult.state] using h
    | ok entries => simpa [hp, hl] using processEntries_keeps_keys entries st.map k h

/-- Witness for C10: the subject `a` is present before a reload that
loads only `b.json`, and is still present afterwards. -/
theorem c10_reload_never_removes_subjects_witness :
    (lookupA "a" (MutexMap.mk [("a", Json.null)] false).map).isSome = true
    ∧ (lookupA "a" (read_mappings ⟨"registry", .ok [some ⟨some "b", .parsed Json.null⟩]⟩
        (MutexMap.mk [("a", Json.null)] false)).state.map).isSome = true :=
  ⟨by decide,
   c10_reload_never_removes_subjects ⟨"registry", .ok [some ⟨some "b", .parsed Json.null⟩]⟩
     (MutexMap.mk [("a", Json.null)] false) "a" (by decide)⟩
